import Mathlib

/-!
Verification of the violation identity-matching and diff engine of
WCAG_PR_Checker (`src/diff.js`, with the gate seam of `src/comment.js`).

The embedding models:
- Node's `crypto.createHash('sha1').update(s).digest('hex')` as `sha1Hex`
  (UTF-8 bytes, SHA-1 compression, lower-case hex);
- `fingerprint(violationId, urlPath, node)` producing
  `ruleId::urlPath::selector1>selector2::sha1(html).slice(0,12)`;
- `buildFingerprintMap` flattening a scan into a first-wins association
  list keyed by fingerprint (a JS `Map` in insertion order);
- the new/resolved/unchanged partition, `countByImpact`, the summary,
  the `regression` flag and the process exit codes.

JS-specific behaviours are embedded explicitly: an absent field is an
`Option` that renders as the string `undefined` inside a template
literal; `node.html || ''` becomes `Option.getD "" `; a JS object used
as a counter table is an association list whose first matching key is
updated.
-/

namespace A11yDiff

/-! ## SHA-1 (`crypto.createHash('sha1')`) over byte lists -/

/-- UTF-8 encoding of a single character as a list of byte values. -/
def utf8Bytes (c : Char) : List Nat :=
  let n := c.toNat
  if n < 0x80 then [n]
  else if n < 0x800 then
    [0xC0 ||| (n >>> 6), 0x80 ||| (n &&& 0x3F)]
  else if n < 0x10000 then
    [0xE0 ||| (n >>> 12), 0x80 ||| ((n >>> 6) &&& 0x3F), 0x80 ||| (n &&& 0x3F)]
  else
    [0xF0 ||| (n >>> 18), 0x80 ||| ((n >>> 12) &&& 0x3F),
     0x80 ||| ((n >>> 6) &&& 0x3F), 0x80 ||| (n &&& 0x3F)]

/-- UTF-8 bytes of a string (Node's default encoding for `hash.update`). -/
def strBytes (s : String) : List Nat :=
  (s.data.map utf8Bytes).flatten

/-- Rotate a 32-bit word left by `n` bits. -/
def rotl (n x : Nat) : Nat :=
  ((x <<< n) ||| (x >>> (32 - n))) % 4294967296

/-- Big-endian 8-byte encoding of a number (the SHA-1 length field). -/
def lenBytes8 (n : Nat) : List Nat :=
  [(n >>> 56) &&& 255, (n >>> 48) &&& 255, (n >>> 40) &&& 255, (n >>> 32) &&& 255,
   (n >>> 24) &&& 255, (n >>> 16) &&& 255, (n >>> 8) &&& 255, n &&& 255]

/-- SHA-1 padding: append 0x80, zero bytes to 56 mod 64, then the bit length. -/
def sha1Pad (msg : List Nat) : List Nat :=
  let padZeros := (120 - (msg.length + 1) % 64) % 64
  msg ++ [0x80] ++ List.replicate padZeros 0 ++ lenBytes8 (msg.length * 8)

/-- Group bytes into big-endian 32-bit words. -/
def bytesToWords : List Nat → List Nat
  | b0 :: b1 :: b2 :: b3 :: rest =>
      (((b0 * 256 + b1) * 256 + b2) * 256 + b3) :: bytesToWords rest
  | _ => []

/-- Extend the 16-word message schedule by `k` further words. -/
def extendSchedule : Nat → List Nat → List Nat
  | 0, w => w
  | k + 1, w =>
      let i := w.length
      let x := rotl 1 ((((w.getD (i - 3) 0) ^^^ (w.getD (i - 8) 0)) ^^^
                        (w.getD (i - 14) 0)) ^^^ (w.getD (i - 16) 0))
      extendSchedule k (w ++ [x])

/-- One SHA-1 round: `i` is the round index, `w` the 80-word schedule. -/
def sha1Round (w : List Nat) (st : Nat × Nat × Nat × Nat × Nat) (i : Nat) :
    Nat × Nat × Nat × Nat × Nat :=
  let (a, b, c, d, e) := st
  let f :=
    if i < 20 then (b &&& c) ||| ((b ^^^ 4294967295) &&& d)
    else if i < 40 then (b ^^^ c) ^^^ d
    else if i < 60 then ((b &&& c) ||| (b &&& d)) ||| (c &&& d)
    else (b ^^^ c) ^^^ d
  let k :=
    if i < 20 then 0x5A827999
    else if i < 40 then 0x6ED9EBA1
    else if i < 60 then 0x8F1BBCDC
    else 0xCA62C1D6
  let temp := (rotl 5 a + f + e + k + w.getD i 0) % 4294967296
  (temp, a, rotl 30 b, c, d)

/-- Compress one 64-byte block into the running hash state. -/
def sha1Block (block : List Nat) (h : Nat × Nat × Nat × Nat × Nat) :
    Nat × Nat × Nat × Nat × Nat :=
  let w := extendSchedule 64 (bytesToWords block)
  let (h0, h1, h2, h3, h4) := h
  let (a, b, c, d, e) := (List.range 80).foldl (sha1Round w) (h0, h1, h2, h3, h4)
  ((h0 + a) % 4294967296, (h1 + b) % 4294967296, (h2 + c) % 4294967296,
   (h3 + d) % 4294967296, (h4 + e) % 4294967296)

/-- Fold the compression function over all 64-byte blocks; the fuel argument
is an upper bound on the block count so the recursion is structural. -/
def sha1BlocksFuel : Nat → List Nat → Nat × Nat × Nat × Nat × Nat →
    Nat × Nat × Nat × Nat × Nat
  | 0, _, h => h
  | _ + 1, [], h => h
  | fuel + 1, msg, h => sha1BlocksFuel fuel (msg.drop 64) (sha1Block (msg.take 64) h)

/-- Fold the compression function over all 64-byte blocks of a padded message. -/
def sha1Blocks (msg : List Nat) (h : Nat × Nat × Nat × Nat × Nat) :
    Nat × Nat × Nat × Nat × Nat :=
  sha1BlocksFuel msg.length msg h

/-- The five 32-bit words of the SHA-1 digest of a byte message. -/
def sha1Words (msg : List Nat) : List Nat :=
  let (h0, h1, h2, h3, h4) :=
    sha1Blocks (sha1Pad msg) (0x67452301, 0xEFCDAB89, 0x98BADCFE, 0x10325476, 0xC3D2E1F0)
  [h0, h1, h2, h3, h4]

/-- Lower-case hex digit for a value below 16. -/
def hexDigit (n : Nat) : Char :=
  if n < 10 then Char.ofNat (48 + n) else Char.ofNat (87 + n)

/-- Eight-hex-digit big-endian rendering of a 32-bit word. -/
def hexWord (n : Nat) : List Char :=
  [hexDigit ((n >>> 28) &&& 15), hexDigit ((n >>> 24) &&& 15),
   hexDigit ((n >>> 20) &&& 15), hexDigit ((n >>> 16) &&& 15),
   hexDigit ((n >>> 12) &&& 15), hexDigit ((n >>> 8) &&& 15),
   hexDigit ((n >>> 4) &&& 15), hexDigit (n &&& 15)]

/-- `crypto.createHash('sha1').update(s).digest('hex')`: 40 lower-case hex chars. -/
def sha1Hex (s : String) : String :=
  ⟨((sha1Words (strBytes s)).map hexWord).flatten⟩

/-! ## Data model (the JSON shape of a scan result, `spec §6`)

A field that may be absent in the JSON is an `Option`; `none` is JS
`undefined`. -/

/-- One failing element: `{ target: [string], html, failureSummary }`. -/
structure NodeResult where
  target : List String
  html : Option String
  failureSummary : Option String
deriving DecidableEq, Repr

/-- One rule failure on a page:
`{ id, impact, description, helpUrl, tags, nodes }`. -/
structure Violation where
  id : Option String
  impact : String
  description : String
  helpUrl : String
  tags : Option (List String)
  nodes : List NodeResult
deriving DecidableEq, Repr

/-- One scanned page: `{ urlPath, violations }`. -/
structure PageResult where
  urlPath : Option String
  violations : List Violation
deriving DecidableEq, Repr

/-- One full scan: `{ pages: [...] }`. -/
structure ScanResult where
  pages : List PageResult
deriving DecidableEq, Repr

/-- The denormalized record stored under a fingerprint by
`buildFingerprintMap` (`diff.js` lines 64-75). -/
structure Record where
  id : Option String
  impact : String
  description : String
  helpUrl : String
  tags : List String
  urlPath : Option String
  target : List String
  html : Option String
  failureSummary : Option String
  fingerprint : String
deriving DecidableEq, Repr

/-! ## Fingerprint builder (`diff.js` lines 40-48) -/

/-- How a possibly-absent value renders inside a JS template literal:
`undefined` becomes the string `"undefined"`. -/
def jsShow : Option String → String
  | none => "undefined"
  | some s => s

/-- `fingerprint(violationId, urlPath, node)`:
the string `ruleId::urlPath::selector1>selector2::sha1hash12` where the
last token is the first 12 hex characters of `sha1(node.html || '')`. -/
def fingerprint (violationId urlPath : Option String) (node : NodeResult) : String :=
  let target := String.intercalate ">" node.target
  let htmlHash := (sha1Hex (node.html.getD "")).take 12
  jsShow violationId ++ "::" ++ jsShow urlPath ++ "::" ++ target ++ "::" ++ htmlHash

/-! ## Scan indexer (`diff.js` lines 54-81)

A JS `Map` is an insertion-ordered association list with unique keys. -/

/-- `map.get(key)` on an association list: the first entry with the key. -/
def getEntry {α : Type} : List (String × α) → String → Option α
  | [], _ => none
  | (k, v) :: rest, key => if k = key then some v else getEntry rest key

/-- `map.has(key)`. -/
def hasKey {α : Type} (map : List (String × α)) (key : String) : Bool :=
  (getEntry map key).isSome

/-- The denormalized record `buildFingerprintMap` stores for one node. -/
def mkRecord (violation : Violation) (page : PageResult) (node : NodeResult)
    (fp : String) : Record :=
  { id := violation.id
    impact := violation.impact
    description := violation.description
    helpUrl := violation.helpUrl
    tags := violation.tags.getD []
    urlPath := page.urlPath
    target := node.target
    html := node.html
    failureSummary := node.failureSummary
    fingerprint := fp }

/-- The `(fingerprint, record)` pair contributed by one node of one
violation of one page. -/
def nodeEntry (violation : Violation) (page : PageResult) (node : NodeResult) :
    String × Record :=
  let fp := fingerprint violation.id page.urlPath node
  (fp, mkRecord violation page node fp)

/-- The entries of one violation, one per node, in node order. -/
def violationEntries (page : PageResult) (violation : Violation) :
    List (String × Record) :=
  violation.nodes.map (nodeEntry violation page)

/-- The entries of one page, in violation then node order. -/
def pageEntries (page : PageResult) : List (String × Record) :=
  (page.violations.map (violationEntries page)).flatten

/-- The `(fingerprint, record)` pairs of a scan in iteration order: every
page, every violation of the page, every node of the violation. -/
def scanEntries (scanResult : ScanResult) : List (String × Record) :=
  (scanResult.pages.map pageEntries).flatten

/-- The loop body of `buildFingerprintMap`: insert each entry unless its
key is already present (`if (map.has(fp)) continue`), appending at the
end as a JS `Map.set` does. -/
def insertAll : List (String × Record) → List (String × Record) →
    List (String × Record)
  | [], map => map
  | (fp, r) :: rest, map =>
      if hasKey map fp then insertAll rest map
      else insertAll rest (map ++ [(fp, r)])

/-- `buildFingerprintMap(scanResult)`: flatten all pages into a
fingerprint-keyed map, first record wins on collision. -/
def buildFingerprintMap (scanResult : ScanResult) : List (String × Record) :=
  insertAll (scanEntries scanResult) []

/-! ## Impact aggregation (`diff.js` lines 83-90) -/

/-- `counts[key]++` on a JS object: bump the (unique) entry with the key. -/
def updateFirst : List (String × Nat) → String → List (String × Nat)
  | [], _ => []
  | (k, n) :: rest, key =>
      if k = key then (k, n + 1) :: rest else (k, n) :: updateFirst rest key

/-- The loop body of `countByImpact`: increment an existing bucket, or
add a new bucket at 1 (`else counts[v.impact] = 1`). -/
def bumpImpact (counts : List (String × Nat)) (impact : String) :
    List (String × Nat) :=
  if hasKey counts impact then updateFirst counts impact
  else counts ++ [(impact, 1)]

/-- `{ critical: 0, serious: 0, moderate: 0, minor: 0 }`. -/
def initialImpactCounts : List (String × Nat) :=
  [("critical", 0), ("serious", 0), ("moderate", 0), ("minor", 0)]

/-- `countByImpact(map)`: tally records per severity tier. -/
def countByImpact (map : List (String × Record)) : List (String × Nat) :=
  map.foldl (fun counts e => bumpImpact counts e.2.impact) initialImpactCounts

/-! ## Diff computation (`diff.js` lines 104-137) -/

/-- Head entries whose fingerprint is absent from the baseline map. -/
def newViolations (baselineMap headMap : List (String × Record)) : List Record :=
  (headMap.filter (fun e => !hasKey baselineMap e.1)).map Prod.snd

/-- Baseline entries whose fingerprint is absent from the head map. -/
def resolvedViolations (baselineMap headMap : List (String × Record)) : List Record :=
  (baselineMap.filter (fun e => !hasKey headMap e.1)).map Prod.snd

/-- Head entries whose fingerprint is present in the baseline map. -/
def unchangedViolations (baselineMap headMap : List (String × Record)) : List Record :=
  (headMap.filter (fun e => hasKey baselineMap e.1)).map Prod.snd

/-- The `summary` block of the diff report. -/
structure Summary where
  baselineTotal : Nat
  headTotal : Nat
  newViolations : Nat
  resolvedViolations : Nat
  unchanged : Nat
deriving DecidableEq, Repr

/-- The diff report written to `diff.json` (without the wall-clock
`generatedAt` stamp, which the core does not compute from its inputs). -/
structure DiffOutput where
  regression : Bool
  summary : Summary
  impactBaseline : List (String × Nat)
  impactHead : List (String × Nat)
  newViolations : List Record
  resolvedViolations : List Record
  unchangedViolations : List Record
deriving DecidableEq, Repr

/-- The pure part of `main` in `diff.js`: build both maps, partition,
aggregate, and assemble the report. -/
def computeDiff (baseline head : ScanResult) : DiffOutput :=
  let baselineMap := buildFingerprintMap baseline
  let headMap := buildFingerprintMap head
  let nv := newViolations baselineMap headMap
  let rv := resolvedViolations baselineMap headMap
  let uv := unchangedViolations baselineMap headMap
  { regression := decide (nv.length > 0)
    summary :=
      { baselineTotal := baselineMap.length
        headTotal := headMap.length
        newViolations := nv.length
        resolvedViolations := rv.length
        unchanged := uv.length }
    impactBaseline := countByImpact baselineMap
    impactHead := countByImpact headMap
    newViolations := nv
    resolvedViolations := rv
    unchangedViolations := uv }

/-- The report and exit status of `diff.js`: the report is written
unconditionally, then the process exits 1 on regression, else 0
(`diff.js` lines 139-159). -/
def diffMain (baseline head : ScanResult) : DiffOutput × Nat :=
  let diff := computeDiff baseline head
  (diff, if diff.regression then 1 else 0)

/-- The exit status alone. -/
def mainExitCode (baseline head : ScanResult) : Nat :=
  (diffMain baseline head).2

/-! ## Regression gate seam (`comment.js`) -/

/-- `FAIL_ON_REGRESSION = process.env.FAIL_ON_REGRESSION !== 'false'`. -/
def failOnRegressionOfEnv (v : Option String) : Bool :=
  !(v == some "false")

/-- The exit decision of `comment.js` main (lines 340-345): fail only
when the diff reports a regression AND `FAIL_ON_REGRESSION` is set. -/
def commentExitCode (regression failOnRegression : Bool) : Nat :=
  if regression && failOnRegression then 1 else 0

/-! ## Modification of a scan (used to state regression monotonicity) -/

/-- Replace the element at position `i` (0-based), if any. -/
def modifyAt {α : Type} : Nat → (α → α) → List α → List α
  | _, _, [] => []
  | 0, f, x :: xs => f x :: xs
  | i + 1, f, x :: xs => x :: modifyAt i f xs

/-- Append one further failing element to a violation. -/
def appendNode (n : NodeResult) (v : Violation) : Violation :=
  { v with nodes := v.nodes ++ [n] }

/-- Append one further occurrence to violation `j` of a page. -/
def addNodeToPage (j : Nat) (n : NodeResult) (page : PageResult) : PageResult :=
  ⟨page.urlPath, modifyAt j (appendNode n) page.violations⟩

/-- Append one further occurrence to violation `j` of page `i` of a scan:
the way a re-scan of a changed head branch adds one more failing element. -/
def addNodeAt (s : ScanResult) (i j : Nat) (n : NodeResult) : ScanResult :=
  ⟨modifyAt i (addNodeToPage j n) s.pages⟩

/-! ## Derived notions used only in statements -/

/-- The fingerprints (keys) of an index in insertion order. -/
def keys {α : Type} (map : List (String × α)) : List String :=
  map.map Prod.fst

/-- The set of fingerprints of an index. -/
def keyFinset {α : Type} (map : List (String × α)) : Finset String :=
  (keys map).toFinset

/-- How many records of an index carry a given severity tier. -/
def impactCount (map : List (String × Record)) (tier : String) : Nat :=
  (map.filter (fun e => e.2.impact == tier)).length

/-- The fingerprints of the report's new-violations list. -/
def diffNewFps (baseline head : ScanResult) : List String :=
  (computeDiff baseline head).newViolations.map Record.fingerprint

/-- The fingerprints of the report's resolved-violations list. -/
def diffResolvedFps (baseline head : ScanResult) : List String :=
  (computeDiff baseline head).resolvedViolations.map Record.fingerprint

/-- The fingerprints of the report's unchanged-violations list. -/
def diffUnchangedFps (baseline head : ScanResult) : List String :=
  (computeDiff baseline head).unchangedViolations.map Record.fingerprint

/-- Modelled from the spec: the Regression Gate contract
`decide(diffResult, failOnRegression) -> {report, shouldFail}` with
`shouldFail = diffResult.regression && failOnRegression` (spec §4.5).
The code realises this seam in `comment.js`. -/
def specShouldFail (regression failOnRegression : Bool) : Bool :=
  regression && failOnRegression

/-! ## Concrete example data (used by witnesses and counterexamples) -/

/-- A failing image element. -/
def nodeImg : NodeResult :=
  ⟨["img"], some "<img src=x>", some "Fix any of the following: add alt text"⟩

/-- The same element re-serialized with one extra space of whitespace. -/
def nodeImgWs : NodeResult :=
  ⟨["img"], some "<img  src=x>", some "Fix any of the following: add alt text"⟩

/-- The same failing element observed again with a different remediation
summary: a distinct occurrence value with the same identity fields. -/
def nodeImgDup : NodeResult :=
  ⟨["img"], some "<img src=x>", some "another summary"⟩

/-- A genuinely different element at the same selector path. -/
def nodeBtn : NodeResult :=
  ⟨["img"], some "<button>Go</button>", some "name the button"⟩

/-- The baseline violation: rule `image-alt`, critical, on `/`. -/
def vBase : Violation :=
  ⟨some "image-alt", "critical", "baseline description",
   "https://example.test/image-alt", some ["wcag2a"], [nodeImg]⟩

/-- The head run of the same violation: identical identity fields but
freshly re-derived description and impact. -/
def vHead : Violation :=
  ⟨some "image-alt", "serious", "head description",
   "https://example.test/image-alt", some ["wcag2aa"], [nodeImg]⟩

/-- A violation only the head scan has: rule `color-contrast` on `/about`. -/
def vNew : Violation :=
  ⟨some "color-contrast", "serious", "contrast too low",
   "https://example.test/color-contrast", some ["wcag2aa"], [nodeBtn]⟩

/-- A violation only the baseline has: rule `label` on `/contact`. -/
def vGone : Violation :=
  ⟨some "label", "moderate", "form label missing",
   "https://example.test/label", none, [⟨["input"], some "<input>", none⟩]⟩

/-- Baseline scan: `image-alt` on `/`, `label` on `/contact`. -/
def bScan : ScanResult :=
  ⟨[⟨some "/", [vBase]⟩, ⟨some "/contact", [vGone]⟩]⟩

/-- Head scan: `image-alt` still on `/` (re-described), `color-contrast`
newly on `/about`, `label` resolved. -/
def hScan : ScanResult :=
  ⟨[⟨some "/", [vHead]⟩, ⟨some "/about", [vNew]⟩]⟩

/-- A head scan with no regression: only the unchanged `image-alt`. -/
def hScanClean : ScanResult :=
  ⟨[⟨some "/", [vHead]⟩]⟩

/-- The empty scan. -/
def emptyScan : ScanResult := ⟨[]⟩

/-- A scan whose only violation is missing its rule id. -/
def sNoRuleId : ScanResult :=
  ⟨[⟨some "/", [⟨none, "minor", "d", "h", none, [⟨["x"], none, none⟩]⟩]⟩]⟩

/-- A scan whose only page is missing its path. -/
def sNoPath : ScanResult :=
  ⟨[⟨none, [⟨some "r", "minor", "d", "h", none, [⟨["x"], none, none⟩]⟩]⟩]⟩

/-- Head scan before the extra occurrence of `image-alt` is introduced. -/
def hScanDup : ScanResult :=
  ⟨[⟨some "/", [⟨some "image-alt", "critical", "d", "h", none, [nodeImg]⟩]⟩]⟩

/-- A violation with an unrecognized severity tier on two elements. -/
def vWeird : Violation :=
  ⟨some "strange-rule", "catastrophic", "oops", "h", none,
   [⟨["a"], some "<x>", none⟩, ⟨["b"], some "<x>", none⟩]⟩

/-- A scan carrying the unrecognized severity tier. -/
def sWeird : ScanResult := ⟨[⟨some "/", [vWeird]⟩]⟩

/-- The entry contributed by the occurrence of `sNoRuleId`. -/
def entryNoRuleId : String × Record :=
  nodeEntry ⟨none, "minor", "d", "h", none, [⟨["x"], none, none⟩]⟩
    ⟨some "/", [⟨none, "minor", "d", "h", none, [⟨["x"], none, none⟩]⟩]⟩
    ⟨["x"], none, none⟩

/-- The denormalized record the head scan stores for `image-alt` on `/`. -/
def recHeadImageAlt : Record :=
  { id := some "image-alt"
    impact := "serious"
    description := "head description"
    helpUrl := "https://example.test/image-alt"
    tags := ["wcag2aa"]
    urlPath := some "/"
    target := ["img"]
    html := some "<img src=x>"
    failureSummary := some "Fix any of the following: add alt text"
    fingerprint := fingerprint (some "image-alt") (some "/") nodeImg }

/-- The denormalized record the baseline scan stores for the same
fingerprint: it differs from the head record in impact, description and
tags. -/
def recBaseImageAlt : Record :=
  { id := some "image-alt"
    impact := "critical"
    description := "baseline description"
    helpUrl := "https://example.test/image-alt"
    tags := ["wcag2a"]
    urlPath := some "/"
    target := ["img"]
    html := some "<img src=x>"
    failureSummary := some "Fix any of the following: add alt text"
    fingerprint := fingerprint (some "image-alt") (some "/") nodeImg }

/-! ## Association-list lemmas (the JS `Map` / object semantics) -/

theorem getEntry_append {α : Type} (l1 l2 : List (String × α)) (k : String) :
    getEntry (l1 ++ l2) k =
      match getEntry l1 k with
      | some v => some v
      | none => getEntry l2 k := by
  induction l1 with
  | nil => simp [getEntry]
  | cons e rest ih =>
    obtain ⟨k0, v0⟩ := e
    by_cases h : k0 = k <;> simp [getEntry, h, ih]

theorem getEntry_isSome_iff {α : Type} (m : List (String × α)) (k : String) :
    (getEntry m k).isSome = true ↔ k ∈ keys m := by
  induction m with
  | nil => simp [getEntry, keys]
  | cons e rest ih =>
    obtain ⟨k0, v0⟩ := e
    by_cases h : k0 = k
    · subst h; simp [getEntry, keys]
    · simp [getEntry, keys, h, ih, Ne.symm h]

theorem hasKey_true_iff {α : Type} (m : List (String × α)) (k : String) :
    hasKey m k = true ↔ k ∈ keys m :=
  getEntry_isSome_iff m k

theorem hasKey_false_iff {α : Type} (m : List (String × α)) (k : String) :
    hasKey m k = false ↔ k ∉ keys m := by
  rw [← hasKey_true_iff]
  cases hasKey m k <;> simp

theorem getEntry_eq_none_iff {α : Type} (m : List (String × α)) (k : String) :
    getEntry m k = none ↔ k ∉ keys m := by
  rw [← getEntry_isSome_iff]
  cases getEntry m k <;> simp

theorem getEntry_mem {α : Type} {m : List (String × α)} {k : String} {v : α}
    (h : getEntry m k = some v) : (k, v) ∈ m := by
  induction m with
  | nil => simp [getEntry] at h
  | cons e rest ih =>
    obtain ⟨k0, v0⟩ := e
    by_cases hk : k0 = k
    · subst hk
      simp [getEntry] at h
      simp [h]
    · simp [getEntry, hk] at h
      exact List.mem_cons_of_mem _ (ih h)

theorem getEntry_of_mem_nodup {α : Type} {m : List (String × α)} {e : String × α}
    (hnodup : (keys m).Nodup) (hmem : e ∈ m) : getEntry m e.1 = some e.2 := by
  induction m with
  | nil => simp at hmem
  | cons e0 rest ih =>
    obtain ⟨k0, v0⟩ := e0
    simp only [keys, List.map_cons, List.nodup_cons] at hnodup
    rcases List.mem_cons.mp hmem with h | h
    · subst h; simp [getEntry]
    · have hkey : e.1 ∈ keys rest := by
        simpa [keys] using List.mem_map_of_mem Prod.fst h
      have hne : k0 ≠ e.1 := fun hEq => hnodup.1 (hEq ▸ hkey)
      simp [getEntry, hne]
      exact ih hnodup.2 h

/-! ## `insertAll` (the `buildFingerprintMap` loop) -/

theorem getEntry_insertAll_of_mem (es m : List (String × Record)) (k : String)
    (h : k ∈ keys m) : getEntry (insertAll es m) k = getEntry m k := by
  induction es generalizing m with
  | nil => simp [insertAll]
  | cons e rest ih =>
    obtain ⟨fp, r⟩ := e
    simp only [insertAll]
    by_cases hmem : hasKey m fp
    · rw [if_pos hmem]; exact ih m h
    · rw [if_neg hmem]
      rw [ih (m ++ [(fp, r)]) (by simp [keys] at h ⊢; exact Or.inl h)]
      rw [getEntry_append]
      have : (getEntry m k).isSome = true := (getEntry_isSome_iff m k).mpr h
      cases hg : getEntry m k with
      | some v => rfl
      | none => rw [hg] at this; simp at this

theorem getEntry_insertAll_of_not_mem (es m : List (String × Record)) (k : String)
    (h : k ∉ keys m) : getEntry (insertAll es m) k = getEntry es k := by
  induction es generalizing m with
  | nil =>
    simp only [insertAll, getEntry]
    exact (getEntry_eq_none_iff m k).mpr h
  | cons e rest ih =>
    obtain ⟨fp, r⟩ := e
    simp only [insertAll]
    by_cases hmem : hasKey m fp
    · rw [if_pos hmem]
      by_cases hk : fp = k
      · subst hk
        exact absurd ((hasKey_true_iff m fp).mp hmem) h
      · rw [ih m h]; simp [getEntry, hk]
    · rw [if_neg hmem]
      by_cases hk : fp = k
      · subst hk
        rw [getEntry_insertAll_of_mem rest (m ++ [(fp, r)]) fp (by simp [keys])]
        rw [getEntry_append]
        rw [(getEntry_eq_none_iff m fp).mpr h]
        simp [getEntry]
      · have hnot : k ∉ keys (m ++ [(fp, r)]) := by
          intro hk1
          simp only [keys, List.map_append, List.map_cons, List.map_nil,
            List.mem_append, List.mem_singleton] at hk1
          rcases hk1 with hk1 | hk1
          · exact h (by simpa [keys] using hk1)
          · exact hk hk1.symm
        rw [ih (m ++ [(fp, r)]) hnot]
        simp [getEntry, hk]

theorem mem_keys_insertAll (es m : List (String × Record)) (k : String) :
    k ∈ keys (insertAll es m) ↔ k ∈ keys m ∨ k ∈ keys es := by
  by_cases h : k ∈ keys m
  · constructor
    · intro _; exact Or.inl h
    · intro _
      rw [← getEntry_isSome_iff, getEntry_insertAll_of_mem es m k h,
        getEntry_isSome_iff]
      exact h
  · rw [← getEntry_isSome_iff, getEntry_insertAll_of_not_mem es m k h,
      getEntry_isSome_iff]
    simp [h]

theorem keys_insertAll_nodup (es m : List (String × Record))
    (h : (keys m).Nodup) : (keys (insertAll es m)).Nodup := by
  induction es generalizing m with
  | nil => simpa [insertAll] using h
  | cons e rest ih =>
    obtain ⟨fp, r⟩ := e
    simp only [insertAll]
    by_cases hmem : hasKey m fp
    · rw [if_pos hmem]; exact ih m h
    · rw [if_neg hmem]
      refine ih (m ++ [(fp, r)]) ?_
      have hnot : fp ∉ keys m := (hasKey_false_iff m fp).mp (by simpa using hmem)
      simp [keys, List.nodup_append]
      exact ⟨by simpa [keys] using h, by simpa [keys] using hnot⟩

theorem mem_insertAll_or {es m : List (String × Record)} {e : String × Record}
    (h : e ∈ insertAll es m) : e ∈ m ∨ e ∈ es := by
  induction es generalizing m with
  | nil => simp only [insertAll] at h; exact Or.inl h
  | cons e0 rest ih =>
    obtain ⟨fp, r⟩ := e0
    simp only [insertAll] at h
    by_cases hmem : hasKey m fp
    · rw [if_pos hmem] at h
      rcases ih h with h1 | h1
      · exact Or.inl h1
      · exact Or.inr (List.mem_cons_of_mem _ h1)
    · rw [if_neg hmem] at h
      rcases ih h with h1 | h1
      · rcases List.mem_append.mp h1 with h2 | h2
        · exact Or.inl h2
        · simp at h2; exact Or.inr (by simp [h2])
      · exact Or.inr (List.mem_cons_of_mem _ h1)

/-! ## `buildFingerprintMap` facts -/

theorem getEntry_buildFingerprintMap (s : ScanResult) (k : String) :
    getEntry (buildFingerprintMap s) k = getEntry (scanEntries s) k :=
  getEntry_insertAll_of_not_mem (scanEntries s) [] k (by simp [keys])

theorem keys_buildFingerprintMap_nodup (s : ScanResult) :
    (keys (buildFingerprintMap s)).Nodup :=
  keys_insertAll_nodup (scanEntries s) [] (by simp [keys])

theorem mem_keys_buildFingerprintMap (s : ScanResult) (k : String) :
    k ∈ keys (buildFingerprintMap s) ↔ k ∈ keys (scanEntries s) := by
  rw [buildFingerprintMap, mem_keys_insertAll]
  simp [keys]

theorem fingerprint_eq_key_of_mem_scanEntries {s : ScanResult}
    {e : String × Record} (h : e ∈ scanEntries s) : e.2.fingerprint = e.1 := by
  simp only [scanEntries, List.mem_flatten, List.mem_map] at h
  obtain ⟨_, ⟨page, _, rfl⟩, h⟩ := h
  simp only [pageEntries, List.mem_flatten, List.mem_map] at h
  obtain ⟨_, ⟨violation, _, rfl⟩, h⟩ := h
  simp only [violationEntries, List.mem_map] at h
  obtain ⟨node, _, rfl⟩ := h
  rfl

theorem fingerprint_eq_key_of_mem_map {s : ScanResult} {e : String × Record}
    (h : e ∈ buildFingerprintMap s) : e.2.fingerprint = e.1 := by
  rcases mem_insertAll_or h with h1 | h1
  · simp at h1
  · exact fingerprint_eq_key_of_mem_scanEntries h1

/-! ## Counting lemmas for the three-way partition -/

theorem length_filter_fst {α : Type} (l : List (String × α)) (p : String → Bool) :
    (l.filter fun e => p e.1).length = ((keys l).filter p).length := by
  induction l with
  | nil => simp [keys]
  | cons e rest ih =>
    cases h : p e.1 <;> simp [keys, List.filter_cons, h] <;> simpa [keys] using ih

theorem mem_keys_filter {α : Type} (l : List (String × α)) (p : String → Bool)
    (k : String) :
    k ∈ keys (l.filter fun e => p e.1) ↔ k ∈ keys l ∧ p k = true := by
  simp only [keys, List.mem_map, List.mem_filter]
  constructor
  · rintro ⟨e, ⟨he, hp⟩, rfl⟩
    exact ⟨⟨e, he, rfl⟩, hp⟩
  · rintro ⟨⟨e, he, rfl⟩, hp⟩
    exact ⟨e, ⟨he, hp⟩, rfl⟩

theorem length_filter_hasKey {α β : Type} (H : List (String × α))
    (B : List (String × β)) (hnodup : (keys H).Nodup) :
    (H.filter fun e => hasKey B e.1).length = (keyFinset H ∩ keyFinset B).card := by
  rw [length_filter_fst]
  have h1 : ((keys H).filter (fun k => hasKey B k)).Nodup := hnodup.filter _
  rw [← List.toFinset_card_of_nodup h1, List.toFinset_filter]
  congr 1
  rw [keyFinset, keyFinset, ← Finset.filter_mem_eq_inter]
  apply Finset.filter_congr
  intro k _
  simp [hasKey_true_iff, List.mem_toFinset]

theorem length_filter_not_hasKey {α β : Type} (H : List (String × α))
    (B : List (String × β)) (hnodup : (keys H).Nodup) :
    (H.filter fun e => !hasKey B e.1).length = (keyFinset H \ keyFinset B).card := by
  have hstep := length_filter_fst H (fun k => !hasKey B k)
  have h1 : ((keys H).filter (fun k => !hasKey B k)).Nodup := hnodup.filter _
  have h2 : ((keys H).filter (fun k => !hasKey B k)).length
      = (keyFinset H \ keyFinset B).card := by
    rw [← List.toFinset_card_of_nodup h1, List.toFinset_filter]
    congr 1
    rw [keyFinset, keyFinset, Finset.sdiff_eq_filter]
    apply Finset.filter_congr
    intro k _
    rw [List.mem_toFinset, ← hasKey_true_iff B k]
    cases hasKey B k <;> simp
  exact hstep.trans h2

theorem length_newViolations (B H : List (String × Record))
    (hnodup : (keys H).Nodup) :
    (newViolations B H).length = (keyFinset H \ keyFinset B).card := by
  rw [newViolations, List.length_map]
  exact length_filter_not_hasKey H B hnodup

theorem length_unchangedViolations (B H : List (String × Record))
    (hnodup : (keys H).Nodup) :
    (unchangedViolations B H).length = (keyFinset H ∩ keyFinset B).card := by
  rw [unchangedViolations, List.length_map]
  exact length_filter_hasKey H B hnodup

theorem length_resolvedViolations (B H : List (String × Record))
    (hnodup : (keys B).Nodup) :
    (resolvedViolations B H).length = (keyFinset B \ keyFinset H).card := by
  rw [resolvedViolations, List.length_map]
  exact length_filter_not_hasKey B H hnodup

theorem card_keyFinset {α : Type} (m : List (String × α))
    (hnodup : (keys m).Nodup) : (keyFinset m).card = m.length := by
  rw [keyFinset, List.toFinset_card_of_nodup hnodup, keys, List.length_map]

theorem map_fingerprint_of_subset {s : ScanResult} {l : List (String × Record)}
    (hsub : ∀ e ∈ l, e ∈ buildFingerprintMap s) :
    (l.map Prod.snd).map Record.fingerprint = keys l := by
  rw [List.map_map, keys]
  apply List.map_congr_left
  intro e he
  exact fingerprint_eq_key_of_mem_map (hsub e he)

/-! ## `countByImpact` lemmas -/

theorem getEntry_updateFirst_self (c : List (String × Nat)) (k : String) :
    getEntry (updateFirst c k) k = (getEntry c k).map (· + 1) := by
  induction c with
  | nil => simp [updateFirst, getEntry]
  | cons e rest ih =>
    obtain ⟨k0, n0⟩ := e
    by_cases h : k0 = k
    · subst h; simp [updateFirst, getEntry]
    · simp [updateFirst, getEntry, h, ih]

theorem getEntry_updateFirst_other (c : List (String × Nat)) (k t : String)
    (h : t ≠ k) : getEntry (updateFirst c k) t = getEntry c t := by
  induction c with
  | nil => simp [updateFirst]
  | cons e rest ih =>
    obtain ⟨k0, n0⟩ := e
    have hkt : ¬ k = t := fun hh => h hh.symm
    by_cases h0 : k0 = k
    · have hk0t : ¬ k0 = t := by rw [h0]; exact hkt
      simp [updateFirst, getEntry, h0, hk0t, hkt]
    · by_cases h1 : k0 = t <;> simp [updateFirst, getEntry, h0, h1, ih, hkt, h]

theorem getEntry_bumpImpact_self (c : List (String × Nat)) (i : String) :
    getEntry (bumpImpact c i) i =
      match getEntry c i with
      | some n => some (n + 1)
      | none => some 1 := by
  unfold bumpImpact
  by_cases h : hasKey c i
  · rw [if_pos h, getEntry_updateFirst_self]
    have hmem := (hasKey_true_iff c i).mp h
    cases hg : getEntry c i with
    | none =>
      rw [← getEntry_isSome_iff, hg] at hmem
      simp at hmem
    | some n => simp
  · rw [if_neg h, getEntry_append]
    have hnone : getEntry c i = none := by
      rw [getEntry_eq_none_iff]
      exact fun hm => h ((hasKey_true_iff c i).mpr hm)
    rw [hnone]
    simp [getEntry]

theorem getEntry_bumpImpact_other (c : List (String × Nat)) (i t : String)
    (h : t ≠ i) : getEntry (bumpImpact c i) t = getEntry c t := by
  unfold bumpImpact
  by_cases hk : hasKey c i
  · rw [if_pos hk]
    exact getEntry_updateFirst_other c i t h
  · rw [if_neg hk, getEntry_append]
    have hit : ¬ i = t := fun hh => h hh.symm
    cases hg : getEntry c t with
    | some v => rfl
    | none => simp [getEntry, hit]

theorem getEntry_countFold (l : List (String × Record)) :
    ∀ (acc : List (String × Nat)) (tier : String),
    getEntry (l.foldl (fun c e => bumpImpact c e.2.impact) acc) tier =
      match getEntry acc tier with
      | some n => some (n + impactCount l tier)
      | none =>
          if impactCount l tier = 0 then none else some (impactCount l tier) := by
  induction l with
  | nil =>
    intro acc tier
    simp only [List.foldl_nil, impactCount, List.filter_nil, List.length_nil]
    cases getEntry acc tier <;> simp
  | cons e rest ih =>
    intro acc tier
    simp only [List.foldl_cons]
    rw [ih]
    by_cases h : e.2.impact = tier
    · have hc : impactCount (e :: rest) tier = impactCount rest tier + 1 := by
        simp [impactCount, List.filter_cons, h]
      rw [h, getEntry_bumpImpact_self, hc]
      cases hg : getEntry acc tier with
      | some n =>
        show some (n + 1 + impactCount rest tier)
          = some (n + (impactCount rest tier + 1))
        exact congrArg some (by omega)
      | none =>
        show some (1 + impactCount rest tier)
          = if impactCount rest tier + 1 = 0 then none
            else some (impactCount rest tier + 1)
        rw [if_neg (Nat.succ_ne_zero _)]
        exact congrArg some (by omega)
    · have hc : impactCount (e :: rest) tier = impactCount rest tier := by
        simp [impactCount, List.filter_cons, h]
      rw [getEntry_bumpImpact_other acc e.2.impact tier (fun hh => h hh.symm), hc]

theorem getEntry_countByImpact (map : List (String × Record)) (tier : String) :
    getEntry (countByImpact map) tier =
      match getEntry initialImpactCounts tier with
      | some n => some (n + impactCount map tier)
      | none =>
          if impactCount map tier = 0 then none else some (impactCount map tier) :=
  getEntry_countFold map initialImpactCounts tier

/-! ## Fingerprint string structure -/

theorem string_append_cancel {p s1 s2 : String} (h : p ++ s1 = p ++ s2) :
    s1 = s2 := by
  have hd : (p ++ s1).data = (p ++ s2).data := congrArg String.data h
  rw [String.data_append, String.data_append] at hd
  exact String.ext (List.append_cancel_left hd)

theorem fingerprint_eq_prefix_append (violationId urlPath : Option String)
    (node : NodeResult) :
    fingerprint violationId urlPath node =
      (jsShow violationId ++ "::" ++ jsShow urlPath ++ "::" ++
        String.intercalate ">" node.target ++ "::") ++
      (sha1Hex (node.html.getD "")).take 12 := by
  rw [fingerprint]

theorem fingerprint_eq_iff_hash_eq (rid url : Option String) (t : List String)
    (h1 h2 fs1 fs2 : Option String) :
    fingerprint rid url ⟨t, h1, fs1⟩ = fingerprint rid url ⟨t, h2, fs2⟩ ↔
      (sha1Hex (h1.getD "")).take 12 = (sha1Hex (h2.getD "")).take 12 := by
  constructor
  · intro h
    rw [fingerprint_eq_prefix_append, fingerprint_eq_prefix_append] at h
    exact string_append_cancel h
  · intro h
    rw [fingerprint_eq_prefix_append, fingerprint_eq_prefix_append, h]

/-! ## Adding one occurrence to a scan (`addNodeAt` decomposition) -/

theorem modifyAt_eq {α : Type} (f : α → α) :
    ∀ (l : List α) (i : Nat) (h : i < l.length),
      modifyAt i f l = l.take i ++ f (l.get ⟨i, h⟩) :: l.drop (i + 1) := by
  intro l
  induction l with
  | nil => intro i h; simp at h
  | cons x xs ih =>
    intro i h
    cases i with
    | zero => simp [modifyAt]
    | succ j =>
      have hj : j < xs.length := by simpa using h
      simp only [modifyAt]
      rw [ih j hj]
      rfl

theorem take_get_drop {α : Type} :
    ∀ (l : List α) (i : Nat) (h : i < l.length),
      l.take i ++ l.get ⟨i, h⟩ :: l.drop (i + 1) = l := by
  intro l
  induction l with
  | nil => intro i h; simp at h
  | cons x xs ih =>
    intro i h
    cases i with
    | zero => simp
    | succ j =>
      have hj : j < xs.length := by simpa using h
      show x :: (xs.take j ++ xs.get ⟨j, hj⟩ :: xs.drop (j + 1)) = x :: xs
      exact congrArg (x :: ·) (ih j hj)

theorem violationEntries_appendNode (page : PageResult) (n : NodeResult)
    (v : Violation) :
    violationEntries page (appendNode n v) =
      violationEntries page v ++ [nodeEntry v page n] := by
  show (v.nodes ++ [n]).map (nodeEntry (appendNode n v) page) = _
  have hfun : nodeEntry (appendNode n v) page = nodeEntry v page := rfl
  rw [hfun, List.map_append]
  rfl

theorem pageEntries_addNodeToPage (page : PageResult) (j : Nat) (n : NodeResult)
    (hj : j < page.violations.length) :
    ∃ A B,
      pageEntries (addNodeToPage j n page) =
        A ++ nodeEntry (page.violations.get ⟨j, hj⟩) page n :: B ∧
      pageEntries page = A ++ B := by
  refine ⟨((page.violations.take j).map (violationEntries page)).flatten ++
      violationEntries page (page.violations.get ⟨j, hj⟩),
    ((page.violations.drop (j + 1)).map (violationEntries page)).flatten, ?_, ?_⟩
  · have hve : violationEntries (addNodeToPage j n page) = violationEntries page := rfl
    show ((modifyAt j (appendNode n) page.violations).map
      (violationEntries (addNodeToPage j n page))).flatten = _
    rw [hve, modifyAt_eq (appendNode n) page.violations j hj,
      List.map_append, List.flatten_append, List.map_cons, List.flatten_cons,
      violationEntries_appendNode]
    simp [List.append_assoc]
  · show (page.violations.map (violationEntries page)).flatten = _
    conv_lhs => rw [← take_get_drop page.violations j hj]
    rw [List.map_append, List.flatten_append, List.map_cons, List.flatten_cons]
    simp [List.append_assoc]

theorem scanEntries_addNodeAt (s : ScanResult) (i j : Nat) (n : NodeResult)
    (hi : i < s.pages.length)
    (hj : j < (s.pages.get ⟨i, hi⟩).violations.length) :
    ∃ P Q,
      scanEntries (addNodeAt s i j n) =
        P ++ nodeEntry ((s.pages.get ⟨i, hi⟩).violations.get ⟨j, hj⟩)
          (s.pages.get ⟨i, hi⟩) n :: Q ∧
      scanEntries s = P ++ Q := by
  obtain ⟨A, B, h1, h2⟩ := pageEntries_addNodeToPage (s.pages.get ⟨i, hi⟩) j n hj
  refine ⟨((s.pages.take i).map pageEntries).flatten ++ A,
    B ++ ((s.pages.drop (i + 1)).map pageEntries).flatten, ?_, ?_⟩
  · show ((modifyAt i (addNodeToPage j n) s.pages).map pageEntries).flatten = _
    rw [modifyAt_eq (addNodeToPage j n) s.pages i hi,
      List.map_append, List.flatten_append, List.map_cons, List.flatten_cons, h1]
    simp [List.append_assoc]
  · show (s.pages.map pageEntries).flatten = _
    conv_lhs => rw [← take_get_drop s.pages i hi]
    rw [List.map_append, List.flatten_append, List.map_cons, List.flatten_cons, h2]
    simp [List.append_assoc]

theorem keyFinset_addNodeAt (s : ScanResult) (i j : Nat) (n : NodeResult)
    (hi : i < s.pages.length)
    (hj : j < (s.pages.get ⟨i, hi⟩).violations.length) :
    keyFinset (buildFingerprintMap (addNodeAt s i j n)) =
      insert
        (fingerprint ((s.pages.get ⟨i, hi⟩).violations.get ⟨j, hj⟩).id
          (s.pages.get ⟨i, hi⟩).urlPath n)
        (keyFinset (buildFingerprintMap s)) := by
  obtain ⟨P, Q, h1, h2⟩ := scanEntries_addNodeAt s i j n hi hj
  ext k
  simp only [keyFinset, List.mem_toFinset, Finset.mem_insert]
  rw [mem_keys_buildFingerprintMap, mem_keys_buildFingerprintMap, h1, h2]
  simp only [keys, List.map_append, List.map_cons, List.mem_append,
    List.mem_cons, nodeEntry]
  constructor
  · rintro (h | h | h)
    · exact Or.inr (Or.inl h)
    · exact Or.inl h
    · exact Or.inr (Or.inr h)
  · rintro (h | h | h)
    · exact Or.inr (Or.inl h)
    · exact Or.inl h
    · exact Or.inr (Or.inr h)

/-! ## Claim theorems -/

/-- Claim C7: the index keeps, for every fingerprint, the record of the
first occurrence encountered in page, violation, node iteration order
(`getEntry (scanEntries s) fp` is exactly that first record), drops later
duplicates (the key list of the index has no duplicates, yet covers every
occurrence's fingerprint), and the scan-level totals of the report equal
the sizes of the respective indexes. -/
theorem index_first_wins_and_totals :
    (∀ (s : ScanResult) (fp : String),
        getEntry (buildFingerprintMap s) fp = getEntry (scanEntries s) fp) ∧
    (∀ s : ScanResult, (keys (buildFingerprintMap s)).Nodup) ∧
    (∀ (s : ScanResult) (fp : String),
        fp ∈ keys (buildFingerprintMap s) ↔ fp ∈ keys (scanEntries s)) ∧
    (∀ baseline head : ScanResult,
        (computeDiff baseline head).summary.baselineTotal
            = (buildFingerprintMap baseline).length ∧
        (computeDiff baseline head).summary.headTotal
            = (buildFingerprintMap head).length) :=
  ⟨getEntry_buildFingerprintMap, keys_buildFingerprintMap_nodup,
   mem_keys_buildFingerprintMap, fun _ _ => ⟨rfl, rfl⟩⟩

/-- Claim C8: the per-severity aggregation counts every record under its
own tier: the four known tiers are always present (zero on the empty
index), and a record with an unrecognized tier is tallied in a
dynamically added bucket named after that tier rather than discarded. -/
theorem countByImpact_correct :
    (∀ tier ∈ keys initialImpactCounts, getEntry (countByImpact []) tier = some 0) ∧
    (∀ (map : List (String × Record)) (tier : String),
        tier ∈ keys initialImpactCounts →
        getEntry (countByImpact map) tier = some (impactCount map tier)) ∧
    (∀ (map : List (String × Record)) (tier : String),
        tier ∉ keys initialImpactCounts → impactCount map tier ≠ 0 →
        getEntry (countByImpact map) tier = some (impactCount map tier)) := by
  have hknown : ∀ (map : List (String × Record)) (tier : String),
      tier ∈ keys initialImpactCounts →
      getEntry (countByImpact map) tier = some (impactCount map tier) := by
    intro map tier htier
    have hinit : getEntry initialImpactCounts tier = some 0 := by
      simp only [initialImpactCounts, keys, List.map_cons, List.map_nil,
        List.mem_cons, List.not_mem_nil, or_false] at htier
      rcases htier with rfl | rfl | rfl | rfl <;> rfl
    rw [getEntry_countByImpact, hinit]
    show some (0 + impactCount map tier) = some (impactCount map tier)
    rw [Nat.zero_add]
  refine ⟨?_, hknown, ?_⟩
  · intro tier htier
    have h := hknown [] tier htier
    rw [h]
    rfl
  · intro map tier htier hcnt
    have hinit : getEntry initialImpactCounts tier = none :=
      (getEntry_eq_none_iff initialImpactCounts tier).mpr htier
    rw [getEntry_countByImpact, hinit]
    show (if impactCount map tier = 0 then none else some (impactCount map tier))
        = some (impactCount map tier)
    rw [if_neg hcnt]

/-- Claim C2: the regression flag is true exactly when some head
fingerprint is absent from the baseline index; in particular when every
head fingerprint is present in the baseline, the flag is false no matter
how many resolved or unchanged violations exist. -/
theorem regression_iff_new_nonempty (baseline head : ScanResult) :
    ((computeDiff baseline head).regression = true ↔
      ∃ fp ∈ keys (buildFingerprintMap head),
        fp ∉ keys (buildFingerprintMap baseline)) ∧
    ((∀ fp ∈ keys (buildFingerprintMap head),
        fp ∈ keys (buildFingerprintMap baseline)) →
      (computeDiff baseline head).regression = false) := by
  have hmain : (computeDiff baseline head).regression = true ↔
      ∃ fp ∈ keys (buildFingerprintMap head),
        fp ∉ keys (buildFingerprintMap baseline) := by
    show decide (0 < (newViolations (buildFingerprintMap baseline)
      (buildFingerprintMap head)).length) = true ↔ _
    rw [decide_eq_true_iff]
    rw [newViolations, List.length_map, List.length_pos_iff_exists_mem]
    constructor
    · rintro ⟨e, he⟩
      rw [List.mem_filter] at he
      refine ⟨e.1, ?_, ?_⟩
      · exact List.mem_map_of_mem Prod.fst he.1
      · have := he.2
        rw [Bool.not_eq_true'] at this
        exact (hasKey_false_iff _ _).mp this
    · rintro ⟨fp, hfp, hnotb⟩
      rw [keys, List.mem_map] at hfp
      obtain ⟨e, he, rfl⟩ := hfp
      refine ⟨e, List.mem_filter.mpr ⟨he, ?_⟩⟩
      rw [Bool.not_eq_true']
      exact (hasKey_false_iff _ _).mpr hnotb
  refine ⟨hmain, fun hall => ?_⟩
  cases hreg : (computeDiff baseline head).regression with
  | false => rfl
  | true =>
    obtain ⟨fp, hfp, hnotb⟩ := hmain.mp hreg
    exact absurd (hall fp hfp) hnotb

/-- Claim C5: `diff.js` always assembles and writes the report, then
exits 0 exactly when the regression flag is false and 1 exactly when it
is true; the `FAIL_ON_REGRESSION` override of `comment.js` realizes the
spec's gate `shouldFail = regression && failOnRegression`, so with the
override off the comment step exits 0 even on a regression. -/
theorem exit_codes_and_gate (baseline head : ScanResult) (failOnRegression : Bool) :
    (diffMain baseline head = (computeDiff baseline head,
        if (computeDiff baseline head).regression then 1 else 0)) ∧
    (mainExitCode baseline head = 0 ↔
      (computeDiff baseline head).regression = false) ∧
    (mainExitCode baseline head = 1 ↔
      (computeDiff baseline head).regression = true) ∧
    (commentExitCode (computeDiff baseline head).regression failOnRegression = 1 ↔
      (computeDiff baseline head).regression = true ∧ failOnRegression = true) ∧
    (failOnRegression = false →
      commentExitCode (computeDiff baseline head).regression failOnRegression = 0) ∧
    (commentExitCode (computeDiff baseline head).regression failOnRegression
      = if specShouldFail (computeDiff baseline head).regression failOnRegression
        then 1 else 0) := by
  refine ⟨rfl, ?_, ?_, ?_, ?_, ?_⟩ <;>
    cases hreg : (computeDiff baseline head).regression <;>
      cases failOnRegression <;>
        simp [mainExitCode, diffMain, hreg, commentExitCode, specShouldFail]

/-- Claim C1: the diff partitions the two indexes. A fingerprint is in
the head index exactly when it is in the new or the unchanged list (never
both); a fingerprint is in the baseline index exactly when it is in the
resolved or the unchanged list (never both); the new and resolved lists
are disjoint; and the counts satisfy
`unchanged = headTotal - new = baselineTotal - resolved`. -/
theorem diff_partition_complete (baseline head : ScanResult) :
    (∀ fp, (fp ∈ keys (buildFingerprintMap head) ↔
        fp ∈ diffNewFps baseline head ∨ fp ∈ diffUnchangedFps baseline head) ∧
      ¬(fp ∈ diffNewFps baseline head ∧ fp ∈ diffUnchangedFps baseline head)) ∧
    (∀ fp, (fp ∈ keys (buildFingerprintMap baseline) ↔
        fp ∈ diffResolvedFps baseline head ∨ fp ∈ diffUnchangedFps baseline head) ∧
      ¬(fp ∈ diffResolvedFps baseline head ∧ fp ∈ diffUnchangedFps baseline head)) ∧
    (∀ fp, ¬(fp ∈ diffNewFps baseline head ∧ fp ∈ diffResolvedFps baseline head)) ∧
    ((computeDiff baseline head).summary.unchanged
      = (computeDiff baseline head).summary.headTotal
        - (computeDiff baseline head).summary.newViolations) ∧
    ((computeDiff baseline head).summary.unchanged
      = (computeDiff baseline head).summary.baselineTotal
        - (computeDiff baseline head).summary.resolvedViolations) := by
  have hBn := keys_buildFingerprintMap_nodup baseline
  have hHn := keys_buildFingerprintMap_nodup head
  have hnew : diffNewFps baseline head
      = keys ((buildFingerprintMap head).filter
          fun e => !hasKey (buildFingerprintMap baseline) e.1) :=
    map_fingerprint_of_subset (fun _ he => List.mem_of_mem_filter he)
  have hunch : diffUnchangedFps baseline head
      = keys ((buildFingerprintMap head).filter
          fun e => hasKey (buildFingerprintMap baseline) e.1) :=
    map_fingerprint_of_subset (fun _ he => List.mem_of_mem_filter he)
  have hres : diffResolvedFps baseline head
      = keys ((buildFingerprintMap baseline).filter
          fun e => !hasKey (buildFingerprintMap head) e.1) :=
    map_fingerprint_of_subset (fun _ he => List.mem_of_mem_filter he)
  have hmemnew : ∀ fp, fp ∈ diffNewFps baseline head ↔
      fp ∈ keys (buildFingerprintMap head) ∧
        fp ∉ keys (buildFingerprintMap baseline) := by
    intro fp
    rw [hnew]
    have hstep := mem_keys_filter (buildFingerprintMap head)
      (fun k => !hasKey (buildFingerprintMap baseline) k) fp
    exact hstep.trans (and_congr_right fun _ => by
      rw [Bool.not_eq_true']
      exact hasKey_false_iff _ _)
  have hmemunch : ∀ fp, fp ∈ diffUnchangedFps baseline head ↔
      fp ∈ keys (buildFingerprintMap head) ∧
        fp ∈ keys (buildFingerprintMap baseline) := by
    intro fp
    rw [hunch, mem_keys_filter, hasKey_true_iff]
  have hmemres : ∀ fp, fp ∈ diffResolvedFps baseline head ↔
      fp ∈ keys (buildFingerprintMap baseline) ∧
        fp ∉ keys (buildFingerprintMap head) := by
    intro fp
    rw [hres]
    have hstep := mem_keys_filter (buildFingerprintMap baseline)
      (fun k => !hasKey (buildFingerprintMap head) k) fp
    exact hstep.trans (and_congr_right fun _ => by
      rw [Bool.not_eq_true']
      exact hasKey_false_iff _ _)
  refine ⟨?_, ?_, ?_, ?_, ?_⟩
  · intro fp
    rw [hmemnew fp, hmemunch fp]
    by_cases h1 : fp ∈ keys (buildFingerprintMap head) <;>
      by_cases h2 : fp ∈ keys (buildFingerprintMap baseline) <;> tauto
  · intro fp
    rw [hmemres fp, hmemunch fp]
    by_cases h1 : fp ∈ keys (buildFingerprintMap head) <;>
      by_cases h2 : fp ∈ keys (buildFingerprintMap baseline) <;> tauto
  · intro fp
    rw [hmemnew fp, hmemres fp]
    tauto
  · show (unchangedViolations (buildFingerprintMap baseline)
        (buildFingerprintMap head)).length
      = (buildFingerprintMap head).length
        - (newViolations (buildFingerprintMap baseline)
            (buildFingerprintMap head)).length
    rw [length_unchangedViolations _ _ hHn, length_newViolations _ _ hHn,
      ← card_keyFinset (buildFingerprintMap head) hHn]
    have := Finset.card_sdiff_add_card_inter
      (keyFinset (buildFingerprintMap head))
      (keyFinset (buildFingerprintMap baseline))
    omega
  · show (unchangedViolations (buildFingerprintMap baseline)
        (buildFingerprintMap head)).length
      = (buildFingerprintMap baseline).length
        - (resolvedViolations (buildFingerprintMap baseline)
            (buildFingerprintMap head)).length
    rw [length_unchangedViolations _ _ hHn, length_resolvedViolations _ _ hBn,
      ← card_keyFinset (buildFingerprintMap baseline) hBn]
    have h1 := Finset.card_sdiff_add_card_inter
      (keyFinset (buildFingerprintMap baseline))
      (keyFinset (buildFingerprintMap head))
    rw [Finset.inter_comm] at h1
    omega

/-- Claim C10: every record in the unchanged list is the head scan's
denormalized record for its fingerprint, never the baseline's: when both
indexes hold the same fingerprint, the head record appears in the list
and is the only record of that fingerprint in it. -/
theorem unchanged_keeps_head_record (baseline head : ScanResult) (fp : String)
    (rH rB : Record)
    (hH : getEntry (buildFingerprintMap head) fp = some rH)
    (hB : getEntry (buildFingerprintMap baseline) fp = some rB) :
    rH ∈ (computeDiff baseline head).unchangedViolations ∧
    ∀ r ∈ (computeDiff baseline head).unchangedViolations,
      r.fingerprint = fp → r = rH := by
  have hHn := keys_buildFingerprintMap_nodup head
  have hkeyB : hasKey (buildFingerprintMap baseline) fp = true := by
    rw [hasKey, hB]; rfl
  have hmemH : (fp, rH) ∈ buildFingerprintMap head := getEntry_mem hH
  constructor
  · show rH ∈ unchangedViolations (buildFingerprintMap baseline)
      (buildFingerprintMap head)
    rw [unchangedViolations, List.mem_map]
    exact ⟨(fp, rH), List.mem_filter.mpr ⟨hmemH, hkeyB⟩, rfl⟩
  · intro r hr hrfp
    have hr2 : r ∈ unchangedViolations (buildFingerprintMap baseline)
        (buildFingerprintMap head) := hr
    rw [unchangedViolations, List.mem_map] at hr2
    obtain ⟨e, hef, rfl⟩ := hr2
    have heH : e ∈ buildFingerprintMap head := List.mem_of_mem_filter hef
    have hekey : e.2.fingerprint = e.1 := fingerprint_eq_key_of_mem_map heH
    have he1 : e.1 = fp := by rw [← hekey, hrfp]
    have := getEntry_of_mem_nodup hHn heH
    rw [he1, hH] at this
    exact (Option.some_inj.mp this).symm

set_option maxRecDepth 1000000 in
/-- Claim C3 (amended): the markup token is the truncated SHA-1 of the
verbatim markup string, so with rule id, page path and selector path
fixed, two occurrences get the same fingerprint exactly when the
truncated digests of their markup agree; in particular a whitespace-only
re-serialization changes the fingerprint (there is no normalization), and
genuinely different markup changes it whenever the digests differ. -/
theorem fingerprint_markup_sensitivity :
    (∀ (rid url : Option String) (t : List String) (h1 h2 fs1 fs2 : Option String),
      fingerprint rid url ⟨t, h1, fs1⟩ = fingerprint rid url ⟨t, h2, fs2⟩ ↔
        (sha1Hex (h1.getD "")).take 12 = (sha1Hex (h2.getD "")).take 12) ∧
    fingerprint (some "image-alt") (some "/") nodeImg ≠
      fingerprint (some "image-alt") (some "/") nodeImgWs ∧
    fingerprint (some "image-alt") (some "/") nodeImg ≠
      fingerprint (some "image-alt") (some "/") nodeBtn := by
  refine ⟨fingerprint_eq_iff_hash_eq, ?_, ?_⟩ <;> decide

/-- Claim C4 (amended): the fingerprint function is total and signals no
error: a missing rule id or page path is interpolated as the literal
string `undefined` in the key, exactly as if that string had been given,
and indexing never skips an occurrence — every occurrence's fingerprint
(malformed or not) appears among the index keys. -/
theorem fingerprint_total_nothing_skipped :
    (∀ (url : Option String) (n : NodeResult),
        fingerprint none url n = fingerprint (some "undefined") url n) ∧
    (∀ (rid : Option String) (n : NodeResult),
        fingerprint rid none n = fingerprint rid (some "undefined") n) ∧
    (∀ (s : ScanResult), ∀ e ∈ scanEntries s,
        e.1 ∈ keys (buildFingerprintMap s)) := by
  refine ⟨fun _ _ => rfl, fun _ _ => rfl, fun s e he => ?_⟩
  rw [mem_keys_buildFingerprintMap]
  exact List.mem_map_of_mem Prod.fst he

set_option maxRecDepth 1000000 in
/-- Claim C9: the fingerprint is not injective. Distinct occurrences
collide because selector fragments are joined with an unescaped `>`
(fragment lists `["a>b"]` and `["a","b"]` agree), because a missing
markup field hashes like the empty string, and because only the first 12
hex characters of the digest are kept, so any two markups whose truncated
digests agree collide at fixed rule, page and selector. -/
theorem fingerprint_not_injective :
    ((⟨["a>b"], some "<x>", none⟩ : NodeResult) ≠ ⟨["a", "b"], some "<x>", some "s"⟩ ∧
      fingerprint (some "r") (some "/p") ⟨["a>b"], some "<x>", none⟩ =
        fingerprint (some "r") (some "/p") ⟨["a", "b"], some "<x>", some "s"⟩) ∧
    ((⟨["d"], none, some "f1"⟩ : NodeResult) ≠ ⟨["d"], some "", some "f2"⟩ ∧
      fingerprint (some "r") (some "/p") ⟨["d"], none, some "f1"⟩ =
        fingerprint (some "r") (some "/p") ⟨["d"], some "", some "f2"⟩) ∧
    (∀ (rid url : Option String) (t : List String) (h1 h2 fs1 fs2 : Option String),
      (sha1Hex (h1.getD "")).take 12 = (sha1Hex (h2.getD "")).take 12 →
        fingerprint rid url ⟨t, h1, fs1⟩ = fingerprint rid url ⟨t, h2, fs2⟩) := by
  refine ⟨⟨?_, ?_⟩, ⟨?_, ?_⟩, ?_⟩
  · decide
  · decide
  · decide
  · decide
  · intro rid url t h1 h2 fs1 fs2 h
    exact (fingerprint_eq_iff_hash_eq rid url t h1 h2 fs1 fs2).mpr h

/-- Claim C6 (amended): appending to the head scan an occurrence whose
fingerprint is absent from the baseline index and from the current head
index increases the new count by exactly one and makes the regression
flag true. -/
theorem new_count_monotone (baseline head : ScanResult) (i j : Nat)
    (n : NodeResult) (hi : i < head.pages.length)
    (hj : j < (head.pages.get ⟨i, hi⟩).violations.length)
    (hfreshB : fingerprint ((head.pages.get ⟨i, hi⟩).violations.get ⟨j, hj⟩).id
        (head.pages.get ⟨i, hi⟩).urlPath n ∉ keys (buildFingerprintMap baseline))
    (hfreshH : fingerprint ((head.pages.get ⟨i, hi⟩).violations.get ⟨j, hj⟩).id
        (head.pages.get ⟨i, hi⟩).urlPath n ∉ keys (buildFingerprintMap head)) :
    (computeDiff baseline (addNodeAt head i j n)).summary.newViolations
      = (computeDiff baseline head).summary.newViolations + 1 ∧
    (computeDiff baseline (addNodeAt head i j n)).regression = true := by
  have hH'n := keys_buildFingerprintMap_nodup (addNodeAt head i j n)
  have hHn := keys_buildFingerprintMap_nodup head
  have hkf := keyFinset_addNodeAt head i j n hi hj
  have hfpB : fingerprint ((head.pages.get ⟨i, hi⟩).violations.get ⟨j, hj⟩).id
      (head.pages.get ⟨i, hi⟩).urlPath n ∉ keyFinset (buildFingerprintMap baseline) := by
    rw [keyFinset, List.mem_toFinset]
    exact hfreshB
  have hfpH : fingerprint ((head.pages.get ⟨i, hi⟩).violations.get ⟨j, hj⟩).id
      (head.pages.get ⟨i, hi⟩).urlPath n ∉ keyFinset (buildFingerprintMap head) := by
    rw [keyFinset, List.mem_toFinset]
    exact hfreshH
  have hcount : (newViolations (buildFingerprintMap baseline)
      (buildFingerprintMap (addNodeAt head i j n))).length
      = (newViolations (buildFingerprintMap baseline)
          (buildFingerprintMap head)).length + 1 := by
    rw [length_newViolations _ _ hH'n, length_newViolations _ _ hHn, hkf,
      Finset.insert_sdiff_of_not_mem _ hfpB,
      Finset.card_insert_of_not_mem (fun hc => hfpH (Finset.mem_sdiff.mp hc).1)]
  refine ⟨hcount, ?_⟩
  show decide (0 < (newViolations (buildFingerprintMap baseline)
    (buildFingerprintMap (addNodeAt head i j n))).length) = true
  rw [decide_eq_true_iff, hcount]
  omega

/-! ## Witnesses and counterexamples on the concrete example scans -/

set_option maxRecDepth 1000000 in
/-- Witness for C1 at the concrete baseline/head pair: the fingerprint of
the head-only `color-contrast` occurrence lands in the new or unchanged
list. -/
theorem diff_partition_complete_witness :
    fingerprint (some "color-contrast") (some "/about") nodeBtn
        ∈ diffNewFps bScan hScan ∨
      fingerprint (some "color-contrast") (some "/about") nodeBtn
        ∈ diffUnchangedFps bScan hScan :=
  ((diff_partition_complete bScan hScan).1
    (fingerprint (some "color-contrast") (some "/about") nodeBtn)).1.mp (by decide)

set_option maxRecDepth 1000000 in
/-- Witness for C2: a head scan whose only fingerprint is already in the
baseline reports no regression, though baseline-only debt exists. -/
theorem regression_iff_new_nonempty_witness :
    (computeDiff bScan hScanClean).regression = false :=
  (regression_iff_new_nonempty bScan hScanClean).2 (by decide)

set_option maxRecDepth 1000000 in
/-- Counterexample for C3 as stated: a whitespace-only re-serialization
of the markup produces a different fingerprint. -/
theorem fingerprint_whitespace_changes :
    fingerprint (some "image-alt") (some "/") nodeImg ≠
      fingerprint (some "image-alt") (some "/") nodeImgWs := by
  decide

set_option maxRecDepth 1000000 in
/-- Witness for the amended C3: with identical markup the truncated
digests agree and the fingerprints coincide. -/
theorem fingerprint_markup_sensitivity_witness :
    fingerprint (some "r") (some "/") ⟨["d"], some "<x>", none⟩ =
      fingerprint (some "r") (some "/") ⟨["d"], some "<x>", some "s"⟩ :=
  (fingerprint_markup_sensitivity.1 (some "r") (some "/") ["d"]
    (some "<x>") (some "<x>") none (some "s")).mpr rfl

set_option maxRecDepth 1000000 in
/-- Counterexample for C4 as stated: an occurrence with a missing rule id
(or page path) raises no error and is not skipped — it is indexed under a
key containing the literal string `undefined`. -/
theorem invalid_occurrence_not_signalled :
    (buildFingerprintMap sNoRuleId).length = 1 ∧
    hasKey (buildFingerprintMap sNoRuleId)
      (fingerprint none (some "/") ⟨["x"], none, none⟩) = true ∧
    (buildFingerprintMap sNoPath).length = 1 ∧
    (fingerprint none (some "/") ⟨["x"], none, none⟩).take 11 = "undefined::" := by
  refine ⟨?_, ?_, ?_, ?_⟩ <;> decide

set_option maxRecDepth 1000000 in
/-- Witness for the amended C4: the fingerprint of the malformed
occurrence of `sNoRuleId` appears among the index keys. -/
theorem fingerprint_total_nothing_skipped_witness :
    entryNoRuleId.1 ∈ keys (buildFingerprintMap sNoRuleId) :=
  fingerprint_total_nothing_skipped.2.2 sNoRuleId entryNoRuleId (by decide)

set_option maxRecDepth 1000000 in
/-- Witness for C5: with the override off, the comment gate exits 0 for
the regressing concrete pair. -/
theorem exit_codes_and_gate_witness :
    commentExitCode (computeDiff bScan hScan).regression false = 0 :=
  (exit_codes_and_gate bScan hScan false).2.2.2.2.1 rfl

set_option maxRecDepth 1000000 in
/-- Counterexample for C6 as stated: adding to the head scan a duplicate
occurrence whose fingerprint is absent from the (empty) baseline does not
increase the new count — the index deduplicates it. -/
theorem monotonicity_counterexample :
    fingerprint (some "image-alt") (some "/") nodeImgDup
        ∉ keys (buildFingerprintMap emptyScan) ∧
    (computeDiff emptyScan (addNodeAt hScanDup 0 0 nodeImgDup)).summary.newViolations
      = (computeDiff emptyScan hScanDup).summary.newViolations := by
  refine ⟨?_, ?_⟩ <;> decide

set_option maxRecDepth 1000000 in
/-- Witness for the amended C6: adding a genuinely fresh occurrence to
the head scan increases the new count by one. -/
theorem new_count_monotone_witness :
    (computeDiff emptyScan (addNodeAt hScanDup 0 0 nodeBtn)).summary.newViolations
      = (computeDiff emptyScan hScanDup).summary.newViolations + 1 :=
  (new_count_monotone emptyScan hScanDup 0 0 nodeBtn (by decide) (by decide)
    (by decide) (by decide)).1

set_option maxRecDepth 1000000 in
/-- Witness for C8: the unrecognized tier `catastrophic` of `sWeird` gets
its own bucket counting both of its occurrences. -/
theorem countByImpact_correct_witness :
    getEntry (countByImpact (buildFingerprintMap sWeird)) "catastrophic" = some 2 :=
  (countByImpact_correct.2.2 (buildFingerprintMap sWeird) "catastrophic"
    (by decide) (by decide)).trans (by decide)

set_option maxRecDepth 1000000 in
/-- Witness for C9: markups with equal truncated digests collide (here
the two markup options denote the same empty string). -/
theorem fingerprint_not_injective_witness :
    fingerprint (some "a") (some "/") ⟨[], none, none⟩ =
      fingerprint (some "a") (some "/") ⟨[], some "", none⟩ :=
  fingerprint_not_injective.2.2 (some "a") (some "/") [] none (some "") none none rfl

set_option maxRecDepth 1000000 in
/-- Witness for C10: at the shared `image-alt` fingerprint the unchanged
list carries the head scan's record (serious, re-described), not the
baseline's. -/
theorem unchanged_keeps_head_record_witness :
    recHeadImageAlt ∈ (computeDiff bScan hScan).unchangedViolations :=
  (unchanged_keeps_head_record bScan hScan
    (fingerprint (some "image-alt") (some "/") nodeImg)
    recHeadImageAlt recBaseImageAlt (by decide) (by decide)).1

end A11yDiff
